import Mathlib

/-!
Verification of the SAP RFC invocation tool (`execInvokeFM.py`).

The development shallowly embeds the parts of the script that the
specification talks about:

* a model `PyVal` of the Python values occurring in RFC results
  (scalars, structures, tables), together with Python truthiness;
* the result projector `process_results` / `capturedResults`
  (method `SAPConnection._process_results`), including the
  `TABLE[FIELD]` specifier parsing and the `row.get(field) or
  row.get("WA")` extraction;
* the display step of `_display_all_results` / `_display_captured_results`
  (serialization is kept abstract: a `Rendered` value remembers which
  `PyVal` it serializes);
* `ConnectionParams.to_dict` and the argument list handed to the native
  `Connection` constructor;
* `ConfigManager.load_config` section selection;
* the parameter sorting of `get_function_metadata`
  (`parameter_key_function` plus Python's stable `sorted`);
* the error path of `execute_function` and `main` for remote invocation
  faults.
-/

/-- A Python value as it occurs in RFC call results: `None`, booleans,
integers, strings, lists and string-keyed dictionaries (dictionaries are
association lists in declaration order, as in CPython). -/
inductive PyVal where
  | vNone : PyVal
  | vBool : Bool → PyVal
  | vInt : Int → PyVal
  | vStr : String → PyVal
  | vList : List PyVal → PyVal
  | vDict : List (String × PyVal) → PyVal

/-- A Python dict with string keys, in insertion order. -/
abbrev PyDict := List (String × PyVal)

/-- `d.get(k)` without default: the value stored under the first matching
key, if any. -/
def dictLookup (d : PyDict) (k : String) : Option PyVal :=
  match d.find? (fun kv => kv.1 == k) with
  | some kv => some kv.2
  | none => none

/-- Python truthiness (`bool(v)`) for the modelled values. -/
def pyTruthy : PyVal → Bool
  | PyVal.vNone => false
  | PyVal.vBool b => b
  | PyVal.vInt n => n != 0
  | PyVal.vStr s => s != ""
  | PyVal.vList l => !l.isEmpty
  | PyVal.vDict d => !d.isEmpty

/-- Python's `a or b`: `a` when `a` is truthy, otherwise `b`. -/
def pyOr (a b : PyVal) : PyVal :=
  if pyTruthy a then a else b

/-- `row.get(k)` on a row dictionary: the stored value, or `None` when the
key is absent. -/
def rowGet (row : PyDict) (k : String) : PyVal :=
  match dictLookup row k with
  | some v => v
  | none => PyVal.vNone

/-- The per-row extraction of `_process_results`:
`row.get(field) or row.get("WA")`. -/
def extractRow (field : String) (row : PyDict) : PyVal :=
  pyOr (rowGet row field) (rowGet row "WA")

/-- The generator `row.get(field) or row.get("WA") for row in
result[table_name] if isinstance(row, dict)`: one extracted value per row
that is a dictionary, in table order. -/
def extractTable (field : String) (rows : List PyVal) : List PyVal :=
  rows.filterMap (fun r =>
    match r with
    | PyVal.vDict row => some (extractRow field row)
    | _ => none)

/-- `'[' in param` of the specifier test. -/
def containsBracket (p : String) : Bool :=
  p.data.contains '['

/-- `param.endswith(']')` of the specifier test. -/
def endsWithBracket (p : String) : Bool :=
  p.data.getLast? == some ']'

/-- The indexed-table specifier test of `_process_results`:
`'[' in param and param.endswith(']')`. -/
def isIndexed (p : String) : Bool :=
  containsBracket p && endsWithBracket p

/-- The first component of `param.split('[', 1)`: the text before the
first `'['`. -/
def tableName (p : String) : String :=
  String.mk (p.data.takeWhile (fun c => c != '['))

/-- The second component of `param.split('[', 1)`: the text after the
first `'['`. -/
def fieldAfter (p : String) : String :=
  String.mk ((p.data.dropWhile (fun c => c != '[')).drop 1)

/-- `field.rstrip(']')`: remove every trailing `']'`. -/
def rstripBrackets (s : String) : String :=
  String.mk ((s.data.reverse.dropWhile (fun c => c == ']')).reverse)

/-- The field used for table extraction:
`param.split('[', 1)[1].rstrip(']')`. -/
def fieldName (p : String) : String :=
  rstripBrackets (fieldAfter p)

/-- `.extend` on a value stored in the `defaultdict(list)`.  A specifier
processed through the indexed branch always stores a list, so the
non-list case is unreachable in `_process_results`; it is kept as the
identity. -/
def extendVal : PyVal → List PyVal → PyVal
  | PyVal.vList xs, vs => PyVal.vList (xs ++ vs)
  | v, _ => v

/-- `captured_results[param].extend(vs)` on the `defaultdict(list)`:
a missing key is created holding `vs`; an existing entry keeps its
position and is extended in place. -/
def dictExtend (d : PyDict) (k : String) (vs : List PyVal) : PyDict :=
  match d.find? (fun kv => kv.1 == k) with
  | some _ => d.map (fun kv => if kv.1 == k then (kv.1, extendVal kv.2 vs) else kv)
  | none => d ++ [(k, PyVal.vList vs)]

/-- `captured_results[param] = v`: assignment keeps the position of an
existing key and appends a new key at the end. -/
def dictSet (d : PyDict) (k : String) (v : PyVal) : PyDict :=
  match d.find? (fun kv => kv.1 == k) with
  | some _ => d.map (fun kv => if kv.1 == k then (kv.1, v) else kv)
  | none => d ++ [(k, v)]

/-- One iteration of the capture loop of `_process_results` for specifier
`p`, updating the accumulated `captured_results`. -/
def captureParam (result : PyDict) (acc : PyDict) (p : String) : PyDict :=
  if isIndexed p then
    match dictLookup result (tableName p) with
    | some (PyVal.vList rows) => dictExtend acc p (extractTable (fieldName p) rows)
    | _ => acc
  else
    match dictLookup result p with
    | some v => dictSet acc p v
    | none => acc

/-- The capture loop of `_process_results`: fold the specifiers, in
iteration order, into a fresh `defaultdict(list)`. -/
def capturedResults (result : PyDict) (specifiers : List String) : PyDict :=
  specifiers.foldl (captureParam result) []

/-- A value as printed by `_display_all_results` /
`_display_captured_results`: containers go through
`json.dumps(v, indent=2)`, scalars are printed as-is.  The serialized
text itself is kept abstract; `Rendered` remembers the value being
serialized. -/
inductive Rendered where
  | raw : PyVal → Rendered
  | jsonText : PyVal → Rendered

/-- The formatting branch of the display methods:
`json.dumps(value, indent=2) if isinstance(value, (list, dict)) else value`. -/
def formatValue (v : PyVal) : Rendered :=
  match v with
  | PyVal.vList _ => Rendered.jsonText v
  | PyVal.vDict _ => Rendered.jsonText v
  | _ => Rendered.raw v

/-- The value a `Rendered` line serializes. -/
def contentOf : Rendered → PyVal
  | Rendered.raw v => v
  | Rendered.jsonText v => v

/-- `_display_all_results`: every key of the raw result with its
formatted value, in dict order. -/
def display_all_results (result : PyDict) : List (String × Rendered) :=
  result.map (fun kv => (kv.1, formatValue kv.2))

/-- `_display_captured_results`: identical formatting over the captured
results. -/
def display_captured_results (results : PyDict) : List (String × Rendered) :=
  results.map (fun kv => (kv.1, formatValue kv.2))

/-- `not params_to_capture` in `_process_results`: true for `None` and
for an empty specifier collection. -/
def paramsFalsy : Option (List String) → Bool
  | none => true
  | some ps => ps.isEmpty

/-- `_process_results`: with no specifiers the full raw result is
displayed; otherwise the captured results are built and displayed. -/
def process_results (result : PyDict) (specifiers : Option (List String)) :
    List (String × Rendered) :=
  if paramsFalsy specifiers then display_all_results result
  else display_captured_results (capturedResults result (specifiers.getD []))

/-- The `ConnectionParams` dataclass: the required fields are typed `str`
in the source, the optional ones default to `None`; field order is the
declaration order used by `__dict__`. -/
structure ConnectionParams where
  user : String
  passwd : String
  ashost : String
  client : String
  sysnr : String := "00"
  saprouter : Option String := none
  dest : Option String := none
  lang : Option String := none

/-- `ConnectionParams.to_dict`: the `__dict__` entries, in field order,
keeping a pair only when the value is not `None` and the key is neither
`dest` nor `lang`. -/
def ConnectionParams.to_dict (p : ConnectionParams) : List (String × String) :=
  [("user", p.user), ("passwd", p.passwd), ("ashost", p.ashost),
   ("client", p.client), ("sysnr", p.sysnr)]
  ++ (match p.saprouter with
      | some r => [("saprouter", r)]
      | none => [])

/-- The keyword arguments `SAPConnection.connect` hands to the native
`Connection` constructor: `Connection(**self.conn_params.to_dict())`. -/
def connectArgs (p : ConnectionParams) : List (String × String) :=
  p.to_dict

/-- A parsed config file: sections in file order, each a name with its
option/value pairs. -/
abbrev ConfigSections := List (String × List (String × String))

/-- `config.get(section, 'dest')` guarded by `config.has_option`: the
`dest` option of a section, if present. -/
def sectionDest (items : List (String × String)) : Option String :=
  match items.find? (fun kv => kv.1 == "dest") with
  | some kv => some kv.2
  | none => none

/-- The match test of the `load_config` loop:
`config.has_option(section, 'dest') and config.get(section, 'dest') == dest`. -/
def destMatches (d : String) (s : String × List (String × String)) : Bool :=
  sectionDest s.2 == some d

/-- `if dest:` — a `--dest` value is acted on only when it is a
non-empty string. -/
def destTruthy : Option String → Bool
  | none => false
  | some d => d != ""

/-- `ConfigManager.load_config`: missing file is a fatal exit 1; a truthy
`dest` selects the first section whose `dest` option equals it (fatal
exit 1 when none matches); otherwise the first section is used (fatal
exit 1 when there is none).  `Except.error n` models `sys.exit(n)`. -/
def load_config (fileExists : Bool) (sections : ConfigSections)
    (dest : Option String) : Except Nat (List (String × String)) :=
  if !fileExists then Except.error 1
  else if destTruthy dest then
    match sections.find? (destMatches (dest.getD "")) with
    | some s => Except.ok s.2
    | none => Except.error 1
  else
    match sections with
    | [] => Except.error 1
    | s :: _ => Except.ok s.2

/-- A parameter record of a function description, restricted to the two
entries `parameter_key_function` reads: `parameter.get("direction", "")`
and `parameter.get("name", "")` (absent keys are the empty string). -/
structure FMParameter where
  direction : String
  name : String

/-- The `direction_order` lookup with default 5:
`{"IMPORTING": 1, "EXPORTING": 2, "CHANGING": 3, "TABLES": 4}.get(d, 5)`. -/
def direction_order (d : String) : Nat :=
  if d == "IMPORTING" then 1
  else if d == "EXPORTING" then 2
  else if d == "CHANGING" then 3
  else if d == "TABLES" then 4
  else 5

/-- `parameter_key_function`: the sort key
`(direction_order.get(direction.upper(), 5), name)`. -/
def parameter_key_function (p : FMParameter) : Nat × String :=
  (direction_order p.direction.toUpper, p.name)

/-- Strict comparison of Python key tuples `(int, str)`:
lexicographic, strings by code points. -/
def keyLt (a b : Nat × String) : Bool :=
  decide (a.1 < b.1) || (a.1 == b.1 && decide (a.2 < b.2))

/-- Non-strict comparison of key tuples, as used by a stable sort. -/
def keyLe (a b : Nat × String) : Bool :=
  !(keyLt b a)

/-- Stable insertion of a parameter into an already sorted list: it goes
before the first element whose key is not smaller. -/
def insertSorted (x : FMParameter) : List FMParameter → List FMParameter
  | [] => [x]
  | y :: ys =>
    if keyLe (parameter_key_function x) (parameter_key_function y)
    then x :: y :: ys
    else y :: insertSorted x ys

/-- `sorted(func_desc.parameters, key=parameter_key_function)`: Python's
stable sort, modelled as stable insertion sort (any stable sort by the
same total preorder produces the same list). -/
def pySorted : List FMParameter → List FMParameter
  | [] => []
  | x :: xs => insertSorted x (pySorted xs)

/-- The outcome of `self.connection.call(...)` inside
`execute_function`: a result dict, or an application-level fault
(`ABAPApplicationError` / `RFCError`). -/
inductive CallOutcome where
  | ok : PyDict → CallOutcome
  | invocationError : String → CallOutcome

/-- The return value of `execute_function`: `True` on success, `False`
after catching `(ABAPApplicationError, RFCError)`. -/
def execute_function_success : CallOutcome → Bool
  | CallOutcome.ok _ => true
  | CallOutcome.invocationError _ => false

/-- Observable outcome of one run of `main` past a successful connect. -/
structure ProcessRun where
  exitCode : Nat
  connectionClosed : Bool

/-- The invocation branch of `main` (non-`--desc`): the Bool returned by
`sap.execute_function(...)` is discarded, the `with` block's `__exit__`
closes the connection, and `main` returns normally, so the process exits
with code 0 whatever the outcome was. -/
def mainAfterConnect (outcome : CallOutcome) : ProcessRun :=
  let _success := execute_function_success outcome
  { exitCode := 0, connectionClosed := true }

/-- The guard `table_name in result and isinstance(result[table_name],
list)` applied to an optional result entry. -/
def isListEntry : Option PyVal → Bool
  | some (PyVal.vList _) => true
  | _ => false

/-- The rows of a table value that are mappings, in table order. -/
def dictRows (rows : List PyVal) : List PyDict :=
  rows.filterMap (fun r =>
    match r with
    | PyVal.vDict row => some row
    | _ => none)

/-- The count the specification claims for the extracted sequence length:
the number of rows that are mappings containing key `field` or key
`"WA"`.  (Stated from the spec's words, for comparison with the code's
behaviour.) -/
def rowsWithFieldOrWA (field : String) (rows : List PyVal) : Nat :=
  (rows.filter (fun r =>
    match r with
    | PyVal.vDict row => (dictLookup row field).isSome || (dictLookup row "WA").isSome
    | _ => false)).length

/-- Raw result whose only table row has the requested field present but
bound to the empty string (a falsy value), next to a `WA` entry. -/
def falsyFieldResult : PyDict :=
  [("ITAB", PyVal.vList [PyVal.vDict [("FIELD", PyVal.vStr ""), ("WA", PyVal.vStr "x")]])]

/-- The raw result of the worked scenario:
`{"ITAB": [{"WA": "x"}, {"FIELD": "y"}], "STATUS": "OK"}`. -/
def scenarioResult : PyDict :=
  [("ITAB", PyVal.vList [PyVal.vDict [("WA", PyVal.vStr "x")],
                         PyVal.vDict [("FIELD", PyVal.vStr "y")]]),
   ("STATUS", PyVal.vStr "OK")]

/-- Raw result whose single table row is a mapping containing neither the
requested field nor `"WA"`. -/
def bareRowResult : PyDict :=
  [("ITAB", PyVal.vList [PyVal.vDict [("X", PyVal.vInt 1)]])]

/-- A config file with two sections: the first has `dest = NPL`, the
second has an empty `dest` value. -/
def twoSectionConfig : ConfigSections :=
  [("A", [("dest", "NPL"), ("user", "alpha")]),
   ("B", [("dest", ""), ("user", "beta")])]

/-- A config file with two sections with distinct non-empty `dest`
values. -/
def matchConfig : ConfigSections :=
  [("A", [("dest", "NPL"), ("user", "alpha")]),
   ("B", [("dest", "X3"), ("user", "beta")])]

/-- Unfolding a lookup over a non-empty dict. -/
theorem dictLookup_cons (kv : String × PyVal) (d : PyDict) (k : String) :
    dictLookup (kv :: d) k
      = if kv.1 == k then some kv.2 else dictLookup d k := by
  simp only [dictLookup, List.find?]
  cases h : kv.1 == k <;> simp [h]

/-- Looking up one key ignores a pair appended for a different key. -/
theorem dictLookup_append_single (d : PyDict) (k k' : String) (v : PyVal)
    (h : k ≠ k') : dictLookup (d ++ [(k', v)]) k = dictLookup d k := by
  induction d with
  | nil =>
    rw [List.nil_append, dictLookup_cons]
    have hk : (k' == k) = false := beq_eq_false_iff_ne.mpr (Ne.symm h)
    simp [hk, dictLookup]
  | cons kv d ih =>
    rw [List.cons_append, dictLookup_cons, dictLookup_cons, ih]

/-- Rewriting the values stored under a different key does not change a
lookup. -/
theorem dictLookup_map_other (d : PyDict) (k k' : String) (g : PyVal → PyVal)
    (h : k ≠ k') :
    dictLookup (d.map (fun kv => if kv.1 == k' then (kv.1, g kv.2) else kv)) k
      = dictLookup d k := by
  induction d with
  | nil => rfl
  | cons kv d ih =>
    rw [List.map_cons, dictLookup_cons, dictLookup_cons, ih]
    by_cases hk' : (kv.1 == k') = true
    · have hk1 : kv.1 = k' := eq_of_beq hk'
      have hkk : (kv.1 == k) = false :=
        beq_eq_false_iff_ne.mpr (by rw [hk1]; exact Ne.symm h)
      simp [hk', hkk]
    · have hk'f : (kv.1 == k') = false := by simpa using hk'
      simp [hk'f]

/-- `dictExtend` at one key leaves lookups of other keys unchanged. -/
theorem dictLookup_dictExtend_ne (d : PyDict) (k k' : String)
    (vs : List PyVal) (h : k ≠ k') :
    dictLookup (dictExtend d k' vs) k = dictLookup d k := by
  unfold dictExtend
  cases d.find? (fun kv => kv.1 == k') with
  | none => exact dictLookup_append_single d k k' (PyVal.vList vs) h
  | some _ => exact dictLookup_map_other d k k' (fun v => extendVal v vs) h

/-- `dictSet` at one key leaves lookups of other keys unchanged. -/
theorem dictLookup_dictSet_ne (d : PyDict) (k k' : String) (v : PyVal)
    (h : k ≠ k') : dictLookup (dictSet d k' v) k = dictLookup d k := by
  unfold dictSet
  cases d.find? (fun kv => kv.1 == k') with
  | none => exact dictLookup_append_single d k k' v h
  | some _ => exact dictLookup_map_other d k k' (fun _ => v) h

/-- Lookup in a one-entry dict at its own key. -/
theorem dictLookup_single_self (k : String) (v : PyVal) :
    dictLookup [(k, v)] k = some v := by
  simp [dictLookup, List.find?]

/-- A single indexed specifier over a table that is present as a list
produces exactly the one extracted entry. -/
theorem capturedResults_single_indexed (result : PyDict) (p : String)
    (rows : List PyVal) (h1 : isIndexed p = true)
    (h2 : dictLookup result (tableName p) = some (PyVal.vList rows)) :
    capturedResults result [p]
      = [(p, PyVal.vList (extractTable (fieldName p) rows))] := by
  simp [capturedResults, captureParam, h1, h2, dictExtend, List.find?]

/-- The per-row extraction in terms of presence and truthiness: a present
field value is kept only when it is truthy; otherwise `row.get("WA")` is
used (which is `None` when `"WA"` is absent too). -/
theorem extractRow_spec (f : String) (row : PyDict) :
    extractRow f row
      = match dictLookup row f with
        | some v => if pyTruthy v then v else rowGet row "WA"
        | none => rowGet row "WA" := by
  unfold extractRow rowGet pyOr
  cases dictLookup row f with
  | none => simp [pyTruthy]
  | some v => rfl

/-- The extracted column is the dict rows of the table, in order, each
mapped through the per-row extraction. -/
theorem extractTable_eq_map (f : String) (rows : List PyVal) :
    extractTable f rows = (dictRows rows).map (extractRow f) := by
  induction rows with
  | nil => rfl
  | cons r rs ih =>
    cases r <;> simp [extractTable, dictRows, List.filterMap_cons, ih] <;>
      simp [extractTable, dictRows] at ih <;> exact ih

/-- C1 counterexample: in raw result
`{"ITAB": [{"FIELD": "", "WA": "x"}]}` the key `FIELD` is present in the
row with value `""`, yet the specifier `ITAB[FIELD]` extracts the `WA`
entry `"x"`, not `row["FIELD"]`. -/
theorem C1_falsy_field_counterexample :
    dictLookup (capturedResults falsyFieldResult ["ITAB[FIELD]"]) "ITAB[FIELD]"
      = some (PyVal.vList [PyVal.vStr "x"])
  ∧ dictLookup [("FIELD", PyVal.vStr ""), ("WA", PyVal.vStr "x")] "FIELD"
      = some (PyVal.vStr "")
  ∧ PyVal.vStr "x" ≠ PyVal.vStr "" := by
  refine ⟨rfl, rfl, ?_⟩
  intro h
  injection h with h'
  exact absurd h' (by decide)

/-- C1 (amended): for a table present as a list, the extracted element of
each row mapping equals `row[field]` whenever `field` is present with a
truthy value; otherwise — `field` absent or its value falsy — it equals
`row.get("WA")` (the `WA` entry when present, `None` when not). -/
theorem C1_extract_field_with_truthiness_fallback (result : PyDict)
    (p : String) (rows : List PyVal) (h1 : isIndexed p = true)
    (h2 : dictLookup result (tableName p) = some (PyVal.vList rows)) :
    dictLookup (capturedResults result [p]) p
      = some (PyVal.vList (rows.filterMap (fun r =>
          match r with
          | PyVal.vDict row =>
              some (match dictLookup row (fieldName p) with
                    | some v => if pyTruthy v then v else rowGet row "WA"
                    | none => rowGet row "WA")
          | _ => none))) := by
  rw [capturedResults_single_indexed result p rows h1 h2,
    dictLookup_single_self]
  congr 1
  unfold extractTable
  refine congrArg PyVal.vList ?_
  refine congrArg (fun f => List.filterMap f rows) (funext fun r => ?_)
  cases r <;> simp [extractRow_spec]

/-- Witness: the spec's worked scenario run through the amended C1
theorem; the first row falls back to `WA`, the second yields `FIELD`. -/
theorem C1_extract_field_with_truthiness_fallback_witness :
    dictLookup (capturedResults scenarioResult ["ITAB[FIELD]"]) "ITAB[FIELD]"
      = some (PyVal.vList [PyVal.vStr "x", PyVal.vStr "y"]) :=
  (C1_extract_field_with_truthiness_fallback scenarioResult "ITAB[FIELD]"
    [PyVal.vDict [("WA", PyVal.vStr "x")], PyVal.vDict [("FIELD", PyVal.vStr "y")]]
    rfl rfl).trans rfl

/-- C2 counterexample: in raw result `{"ITAB": [{"X": 1}]}` the single
row mapping contains neither `F` nor `"WA"`, so the claimed length is 0;
the code still emits one element (`None`), so the output sequence has
length 1. -/
theorem C2_row_without_field_counterexample :
    dictLookup (capturedResults bareRowResult ["ITAB[F]"]) "ITAB[F]"
      = some (PyVal.vList [PyVal.vNone])
  ∧ ([PyVal.vNone] : List PyVal).length = 1
  ∧ rowsWithFieldOrWA "F" [PyVal.vDict [("X", PyVal.vInt 1)]] = 0
  ∧ (1 : Nat) ≠ 0 := ⟨rfl, rfl, rfl, by decide⟩

/-- C2 (amended): for a table present as a list, the output entry is the
ordered sequence obtained from the rows that are mappings, in table
order, one element per such row (so its length is the number of row
mappings, whether or not they contain `field` or `"WA"`). -/
theorem C2_output_length_counts_dict_rows (result : PyDict) (p : String)
    (rows : List PyVal) (h1 : isIndexed p = true)
    (h2 : dictLookup result (tableName p) = some (PyVal.vList rows)) :
    dictLookup (capturedResults result [p]) p
      = some (PyVal.vList ((dictRows rows).map (extractRow (fieldName p))))
  ∧ ((dictRows rows).map (extractRow (fieldName p))).length
      = (dictRows rows).length := by
  refine ⟨?_, List.length_map _ _⟩
  rw [capturedResults_single_indexed result p rows h1 h2,
    dictLookup_single_self, extractTable_eq_map]

/-- Witness: the amended C2 theorem on the spec scenario's raw result:
both rows are mappings, so the output has two elements. -/
theorem C2_output_length_counts_dict_rows_witness :
    dictLookup (capturedResults scenarioResult ["ITAB[FIELD]"]) "ITAB[FIELD]"
      = some (PyVal.vList [PyVal.vStr "x", PyVal.vStr "y"])
  ∧ (2 : Nat) = 2 :=
  ⟨((C2_output_length_counts_dict_rows scenarioResult "ITAB[FIELD]"
      [PyVal.vDict [("WA", PyVal.vStr "x")], PyVal.vDict [("FIELD", PyVal.vStr "y")]]
      rfl rfl).1).trans rfl, rfl⟩

/-- Display formatting preserves the serialized value. -/
theorem contentOf_formatValue (v : PyVal) : contentOf (formatValue v) = v := by
  cases v <;> rfl

/-- Displaying a whole dict and reading back the serialized values is the
identity. -/
theorem display_all_results_content (d : PyDict) :
    (display_all_results d).map (fun kv => (kv.1, contentOf kv.2)) = d := by
  induction d with
  | nil => rfl
  | cons kv d ih =>
    simp only [display_all_results, List.map_cons] at ih ⊢
    rw [ih, contentOf_formatValue]

/-- C5: with an empty or absent capture set, the displayed output is the
full raw result: same keys in the same order, and each displayed value
serializes exactly the raw value (only the rendering differs). -/
theorem C5_empty_capture_displays_full_result (result : PyDict)
    (specifiers : Option (List String)) (h : paramsFalsy specifiers = true) :
    (process_results result specifiers).map (fun kv => (kv.1, contentOf kv.2))
      = result := by
  have hd := display_all_results_content result
  unfold process_results
  rw [h]
  simpa using hd

/-- Witness: C5 on a concrete result with a scalar and a table, for both
an absent and an empty capture set. -/
theorem C5_empty_capture_displays_full_result_witness :
    (process_results scenarioResult none).map (fun kv => (kv.1, contentOf kv.2))
      = scenarioResult
  ∧ (process_results scenarioResult (some [])).map
        (fun kv => (kv.1, contentOf kv.2))
      = scenarioResult :=
  ⟨C5_empty_capture_displays_full_result scenarioResult none rfl,
   C5_empty_capture_displays_full_result scenarioResult (some []) rfl⟩

/-- Processing any one specifier never touches the entry of a specifier
whose own target is missing or wrong-typed. -/
theorem captureParam_preserves_missing (result : PyDict) (acc : PyDict)
    (q p : String)
    (h : (isIndexed p = true
            ∧ isListEntry (dictLookup result (tableName p)) = false)
       ∨ (isIndexed p = false ∧ dictLookup result p = none)) :
    dictLookup (captureParam result acc q) p = dictLookup acc p := by
  by_cases hqp : q = p
  · subst hqp
    rcases h with ⟨h1, h2⟩ | ⟨h1, h2⟩
    · unfold captureParam
      rw [h1]
      simp only [if_true]
      cases hm : dictLookup result (tableName q) with
      | none => rfl
      | some v =>
        cases v <;> first
          | rfl
          | (rw [hm] at h2; exact absurd h2 (by simp [isListEntry]))
    · unfold captureParam
      rw [h1, h2]
      simp
  · unfold captureParam
    by_cases hq : isIndexed q = true
    · rw [hq]
      simp only [if_true]
      cases dictLookup result (tableName q) with
      | none => rfl
      | some v =>
        cases v <;> try rfl
        exact dictLookup_dictExtend_ne acc p q _ (fun he => hqp he.symm)
    · rw [Bool.not_eq_true] at hq
      rw [hq]
      simp only [Bool.false_eq_true, if_false]
      cases dictLookup result q with
      | none => rfl
      | some v => exact dictLookup_dictSet_ne acc p q v (fun he => hqp he.symm)

/-- The capture loop never creates an entry for a specifier whose target
is missing or wrong-typed, whatever else is in the specifier list. -/
theorem capturedResults_fold_preserves_missing (result : PyDict)
    (specifiers : List String) (acc : PyDict) (p : String)
    (h : (isIndexed p = true
            ∧ isListEntry (dictLookup result (tableName p)) = false)
       ∨ (isIndexed p = false ∧ dictLookup result p = none)) :
    dictLookup (specifiers.foldl (captureParam result) acc) p
      = dictLookup acc p := by
  induction specifiers generalizing acc with
  | nil => rfl
  | cons q qs ih =>
    rw [List.foldl_cons, ih (captureParam result acc q),
      captureParam_preserves_missing result acc q p h]

/-- C6: a specifier whose target is missing or wrong-typed — an indexed
specifier whose table is absent or not a list, or a plain specifier
naming an absent key — yields no output entry (and, the embedding being
total, no error). -/
theorem C6_missing_target_yields_no_entry (result : PyDict)
    (specifiers : List String) (p : String)
    (h : (isIndexed p = true
            ∧ isListEntry (dictLookup result (tableName p)) = false)
       ∨ (isIndexed p = false ∧ dictLookup result p = none)) :
    dictLookup (capturedResults result specifiers) p = none :=
  capturedResults_fold_preserves_missing result specifiers [] p h

/-- Witness: C6 on a concrete raw result, for an indexed specifier whose
table is absent, an indexed specifier whose target is a scalar, and a
plain specifier naming an absent key, all processed in one run. -/
theorem C6_missing_target_yields_no_entry_witness :
    dictLookup (capturedResults [("STATUS", PyVal.vStr "OK")]
        ["T[F]", "STATUS[F]", "MISSING", "STATUS"]) "T[F]" = none
  ∧ dictLookup (capturedResults [("STATUS", PyVal.vStr "OK")]
        ["T[F]", "STATUS[F]", "MISSING", "STATUS"]) "STATUS[F]" = none
  ∧ dictLookup (capturedResults [("STATUS", PyVal.vStr "OK")]
        ["T[F]", "STATUS[F]", "MISSING", "STATUS"]) "MISSING" = none :=
  ⟨C6_missing_target_yields_no_entry [("STATUS", PyVal.vStr "OK")]
      ["T[F]", "STATUS[F]", "MISSING", "STATUS"] "T[F]" (Or.inl ⟨rfl, rfl⟩),
   C6_missing_target_yields_no_entry [("STATUS", PyVal.vStr "OK")]
      ["T[F]", "STATUS[F]", "MISSING", "STATUS"] "STATUS[F]" (Or.inl ⟨rfl, rfl⟩),
   C6_missing_target_yields_no_entry [("STATUS", PyVal.vStr "OK")]
      ["T[F]", "STATUS[F]", "MISSING", "STATUS"] "MISSING" (Or.inr ⟨rfl, rfl⟩)⟩

/-- C3: when the remote call raises an application-level fault,
`execute_function` reports failure by returning `False`, the `with`
block still closes the connection, but `main` discards that return
value, so the process exits with code 0 — not 1 as claimed. -/
theorem C3_invocation_error_exits_zero :
    execute_function_success (CallOutcome.invocationError "RAISE_EXCEPTION")
      = false
  ∧ (mainAfterConnect
        (CallOutcome.invocationError "RAISE_EXCEPTION")).connectionClosed
      = true
  ∧ (mainAfterConnect
        (CallOutcome.invocationError "RAISE_EXCEPTION")).exitCode = 0
  ∧ (mainAfterConnect
        (CallOutcome.invocationError "RAISE_EXCEPTION")).exitCode ≠ 1 := by
  refine ⟨rfl, rfl, rfl, ?_⟩
  intro h
  exact absurd h (by decide)

/-- C7 counterexample: with `--dest ""` given on a config whose second
section has an empty `dest` value, the matching section is `B`, yet the
parameters are built from the first section `A` (the empty string is
falsy, so the `dest` branch is never taken). -/
theorem C7_empty_dest_counterexample :
    destMatches "" ("B", [("dest", ""), ("user", "beta")]) = true
  ∧ destMatches "" ("A", [("dest", "NPL"), ("user", "alpha")]) = false
  ∧ load_config true twoSectionConfig (some "")
      = Except.ok [("dest", "NPL"), ("user", "alpha")] := ⟨rfl, rfl, rfl⟩

/-- C7 (amended): when `--dest` is given with a non-empty value, the
parameters come from the first section whose `dest` option equals it and
from no other; a non-empty `--dest` matching no section exits 1; when
`--dest` is absent or the empty string, the first section is used. -/
theorem C7_section_selection :
    (∀ (sections : ConfigSections) (d : String)
        (s : String × List (String × String)),
      destTruthy (some d) = true →
      sections.find? (destMatches d) = some s →
      load_config true sections (some d) = Except.ok s.2)
  ∧ (∀ (sections : ConfigSections) (d : String),
      destTruthy (some d) = true →
      sections.find? (destMatches d) = none →
      load_config true sections (some d) = Except.error 1)
  ∧ (∀ (s : String × List (String × String)) (rest : ConfigSections)
        (d : Option String),
      destTruthy d = false →
      load_config true (s :: rest) d = Except.ok s.2) := by
  refine ⟨?_, ?_, ?_⟩
  · intro sections d s hd hf
    simp [load_config, hd, hf]
  · intro sections d hd hf
    simp [load_config, hd, hf]
  · intro s rest d hd
    simp [load_config, hd]

/-- Witness: C7 on a two-section config where `--dest X3` matches the
second section, and on the same config without `--dest`. -/
theorem C7_section_selection_witness :
    load_config true matchConfig (some "X3")
      = Except.ok [("dest", "X3"), ("user", "beta")]
  ∧ load_config true matchConfig none
      = Except.ok [("dest", "NPL"), ("user", "alpha")] :=
  ⟨C7_section_selection.1 matchConfig "X3"
      ("B", [("dest", "X3"), ("user", "beta")]) rfl rfl,
   C7_section_selection.2.2 ("A", [("dest", "NPL"), ("user", "alpha")])
      [("B", [("dest", "X3"), ("user", "beta")])] none rfl⟩

/-- C10: the parameters handed to the native `Connection` constructor
are exactly the non-`None` fields other than `dest` and `lang`, in field
order, and changing `dest` or `lang` never changes them. -/
theorem C10_connect_args_ignore_dest_lang (p : ConnectionParams) :
    ((connectArgs p).map Prod.fst
      = ["user", "passwd", "ashost", "client", "sysnr"]
        ++ (match p.saprouter with
            | some _ => ["saprouter"]
            | none => []))
  ∧ "dest" ∉ (connectArgs p).map Prod.fst
  ∧ "lang" ∉ (connectArgs p).map Prod.fst
  ∧ (∀ d l : Option String,
      connectArgs { p with dest := d, lang := l } = connectArgs p) := by
  cases hs : p.saprouter <;>
    simp [connectArgs, ConnectionParams.to_dict, hs]

/-- Characterization of the strict comparison of Python key tuples. -/
theorem keyLt_eq_true_iff (a b : Nat × String) :
    keyLt a b = true ↔ a.1 < b.1 ∨ (a.1 = b.1 ∧ a.2 < b.2) := by
  simp [keyLt]

/-- Characterization of the non-strict comparison of Python key tuples:
first component first, then the string component. -/
theorem keyLe_eq_true_iff (a b : Nat × String) :
    keyLe a b = true ↔ a.1 < b.1 ∨ (a.1 = b.1 ∧ a.2 ≤ b.2) := by
  have hne : keyLe a b = true ↔ ¬(keyLt b a = true) := by
    unfold keyLe
    cases keyLt b a <;> simp
  rw [hne, keyLt_eq_true_iff]
  push_neg
  constructor
  · rintro ⟨h1, h2⟩
    rcases Nat.lt_trichotomy a.1 b.1 with hlt | heq | hgt
    · exact Or.inl hlt
    · exact Or.inr ⟨heq, h2 heq.symm⟩
    · exact absurd h1 (by omega)
  · rintro (hlt | ⟨heq, hle⟩)
    · exact ⟨by omega, fun he => absurd he (by omega)⟩
    · exact ⟨by omega, fun _ => hle⟩

/-- The key order is transitive. -/
theorem keyLe_trans (a b c : Nat × String) (hab : keyLe a b = true)
    (hbc : keyLe b c = true) : keyLe a c = true := by
  rw [keyLe_eq_true_iff] at hab hbc ⊢
  rcases hab with h1 | ⟨h1, h1'⟩ <;> rcases hbc with h2 | ⟨h2, h2'⟩
  · exact Or.inl (by omega)
  · exact Or.inl (by omega)
  · exact Or.inl (by omega)
  · exact Or.inr ⟨by omega, le_trans h1' h2'⟩

/-- The key order is total. -/
theorem keyLe_of_not_keyLe (a b : Nat × String) (h : keyLe a b = false) :
    keyLe b a = true := by
  have h' : ¬(a.1 < b.1 ∨ (a.1 = b.1 ∧ a.2 ≤ b.2)) := by
    rw [← keyLe_eq_true_iff]
    simp [h]
  push_neg at h'
  rw [keyLe_eq_true_iff]
  rcases Nat.lt_trichotomy b.1 a.1 with hlt | heq | hgt
  · exact Or.inl hlt
  · exact Or.inr ⟨heq, le_of_lt (h'.2 heq.symm)⟩
  · exact absurd h'.1 (by omega)

/-- Inserting into a list yields a permutation of consing. -/
theorem insertSorted_perm (x : FMParameter) (l : List FMParameter) :
    (insertSorted x l).Perm (x :: l) := by
  induction l with
  | nil => exact List.Perm.refl _
  | cons y ys ih =>
    unfold insertSorted
    split
    · exact List.Perm.refl _
    · exact (List.Perm.cons y ih).trans (List.Perm.swap x y ys)

/-- The sort is a permutation of its input. -/
theorem pySorted_perm (l : List FMParameter) : (pySorted l).Perm l := by
  induction l with
  | nil => exact List.Perm.refl _
  | cons x xs ih =>
    exact (insertSorted_perm x (pySorted xs)).trans (List.Perm.cons x ih)

/-- Insertion preserves sortedness by the key order. -/
theorem pairwise_insertSorted (x : FMParameter) (l : List FMParameter)
    (h : l.Pairwise (fun p q =>
      keyLe (parameter_key_function p) (parameter_key_function q) = true)) :
    (insertSorted x l).Pairwise (fun p q =>
      keyLe (parameter_key_function p) (parameter_key_function q) = true) := by
  induction l with
  | nil => simp [insertSorted]
  | cons y ys ih =>
    rw [List.pairwise_cons] at h
    obtain ⟨hy, hys⟩ := h
    unfold insertSorted
    split
    · rename_i hle
      rw [List.pairwise_cons]
      refine ⟨?_, List.pairwise_cons.mpr ⟨hy, hys⟩⟩
      intro z hz
      rcases List.mem_cons.mp hz with rfl | hz'
      · exact hle
      · exact keyLe_trans _ _ _ hle (hy z hz')
    · rename_i hle
      have hfalse : keyLe (parameter_key_function x)
          (parameter_key_function y) = false := by
        revert hle
        cases keyLe (parameter_key_function x) (parameter_key_function y) <;>
          simp
      have hyx : keyLe (parameter_key_function y)
          (parameter_key_function x) = true :=
        keyLe_of_not_keyLe _ _ hfalse
      rw [List.pairwise_cons]
      refine ⟨?_, ih hys⟩
      intro z hz
      rcases List.mem_cons.mp ((insertSorted_perm x ys).mem_iff.mp hz)
          with rfl | hz'
      · exact hyx
      · exact hy z hz'

/-- The sorted list is pairwise ordered by the key order. -/
theorem pairwise_pySorted (l : List FMParameter) :
    (pySorted l).Pairwise (fun p q =>
      keyLe (parameter_key_function p) (parameter_key_function q) = true) := by
  induction l with
  | nil => exact List.Pairwise.nil
  | cons x xs ih => exact pairwise_insertSorted x (pySorted xs) ih

/-- Inserting an element of key `k` puts it in front of every other
element of key `k` already present (the passed-over elements have
strictly smaller keys). -/
theorem filter_insertSorted_key_eq (x : FMParameter) (l : List FMParameter)
    (k : Nat × String) (hx : parameter_key_function x = k) :
    (insertSorted x l).filter (fun p => parameter_key_function p == k)
      = x :: l.filter (fun p => parameter_key_function p == k) := by
  induction l with
  | nil => simp [insertSorted, hx]
  | cons y ys ih =>
    unfold insertSorted
    split
    · simp [List.filter_cons, hx]
    · rename_i hle
      have hfalse : keyLe (parameter_key_function x)
          (parameter_key_function y) = false := by
        revert hle
        cases keyLe (parameter_key_function x) (parameter_key_function y) <;>
          simp
      have hlt : keyLt (parameter_key_function y)
          (parameter_key_function x) = true := by
        revert hfalse
        unfold keyLe
        cases keyLt (parameter_key_function y) (parameter_key_function x) <;>
          simp
      have hne : parameter_key_function y ≠ k := by
        intro he
        rw [keyLt_eq_true_iff, he, ← hx] at hlt
        rcases hlt with hcon | ⟨-, hcon⟩ <;> exact absurd hcon (lt_irrefl _)
      have hbeq : (parameter_key_function y == k) = false := by
        simpa using hne
      simp [List.filter_cons, hbeq, ih]

/-- Inserting an element of another key does not change the elements of
key `k` or their order. -/
theorem filter_insertSorted_key_ne (x : FMParameter) (l : List FMParameter)
    (k : Nat × String) (hx : parameter_key_function x ≠ k) :
    (insertSorted x l).filter (fun p => parameter_key_function p == k)
      = l.filter (fun p => parameter_key_function p == k) := by
  have hbeq : (parameter_key_function x == k) = false := by simpa using hx
  induction l with
  | nil => simp [insertSorted, hbeq]
  | cons y ys ih =>
    unfold insertSorted
    split
    · simp [List.filter_cons, hbeq]
    · simp [List.filter_cons, ih]

/-- Stability: for every key, the sorted list carries the elements with
that key in exactly their original order. -/
theorem filter_pySorted (l : List FMParameter) (k : Nat × String) :
    (pySorted l).filter (fun p => parameter_key_function p == k)
      = l.filter (fun p => parameter_key_function p == k) := by
  induction l with
  | nil => rfl
  | cons x xs ih =>
    show (insertSorted x (pySorted xs)).filter _ = _
    by_cases hx : parameter_key_function x = k
    · rw [filter_insertSorted_key_eq x (pySorted xs) k hx, ih]
      have hbeq : (parameter_key_function x == k) = true := by simpa using hx
      simp [List.filter_cons, hbeq]
    · rw [filter_insertSorted_key_ne x (pySorted xs) k hx, ih]
      have hbeq : (parameter_key_function x == k) = false := by simpa using hx
      simp [List.filter_cons, hbeq]

/-- C8: the metadata formatter prints the parameters as a permutation of
the description's list, pairwise ordered by `parameter_key_function` —
direction first in the order IMPORTING < EXPORTING < CHANGING < TABLES,
then name — and stably: elements with equal keys keep their original
relative order. -/
theorem C8_parameters_sorted_by_direction_then_name (ps : List FMParameter) :
    (pySorted ps).Perm ps
  ∧ (pySorted ps).Pairwise (fun p q =>
      keyLe (parameter_key_function p) (parameter_key_function q) = true)
  ∧ (∀ k : Nat × String,
      (pySorted ps).filter (fun p => parameter_key_function p == k)
        = ps.filter (fun p => parameter_key_function p == k))
  ∧ (∀ a b : Nat × String,
      keyLe a b = true ↔ a.1 < b.1 ∨ (a.1 = b.1 ∧ a.2 ≤ b.2))
  ∧ direction_order "IMPORTING" < direction_order "EXPORTING"
  ∧ direction_order "EXPORTING" < direction_order "CHANGING"
  ∧ direction_order "CHANGING" < direction_order "TABLES" :=
  ⟨pySorted_perm ps, pairwise_pySorted ps, filter_pySorted ps,
   keyLe_eq_true_iff, by decide, by decide, by decide⟩

/-- Appending `"]"` to a string appends `']'` to its character list. -/
theorem data_append_bracket (s : String) : (s ++ "]").data = s.data ++ [']'] := by
  cases s
  rfl

/-- `containsBracket` as membership. -/
theorem containsBracket_iff (p : String) :
    containsBracket p = true ↔ '[' ∈ p.data := by
  simp [containsBracket, List.contains, List.elem_eq_mem]

/-- Taking up to a character that occurs in the first part of an append
ignores the second part. -/
theorem takeWhile_append_of_mem (l l' : List Char) (c : Char) (h : c ∈ l) :
    (l ++ l').takeWhile (fun x => x != c) = l.takeWhile (fun x => x != c) := by
  induction l with
  | nil => cases h
  | cons a as ih =>
    by_cases ha : a = c
    · subst ha
      simp [List.takeWhile_cons]
    · rcases List.mem_cons.mp h with he | hm
      · exact absurd he.symm ha
      · simp [List.takeWhile_cons, ha, ih hm]

/-- Dropping up to a character that occurs in the first part of an append
keeps the second part intact. -/
theorem dropWhile_append_of_mem (l l' : List Char) (c : Char) (h : c ∈ l) :
    (l ++ l').dropWhile (fun x => x != c)
      = l.dropWhile (fun x => x != c) ++ l' := by
  induction l with
  | nil => cases h
  | cons a as ih =>
    by_cases ha : a = c
    · subst ha
      simp [List.dropWhile_cons]
    · rcases List.mem_cons.mp h with he | hm
      · exact absurd he.symm ha
      · simp [List.dropWhile_cons, ha, ih hm]

/-- Dropping up to a character that occurs in the list leaves that
character at the head. -/
theorem dropWhile_mem_eq_cons (l : List Char) (c : Char) (h : c ∈ l) :
    ∃ cs, l.dropWhile (fun x => x != c) = c :: cs := by
  induction l with
  | nil => cases h
  | cons a as ih =>
    by_cases ha : a = c
    · subst ha
      exact ⟨as, by simp [List.dropWhile_cons]⟩
    · rcases List.mem_cons.mp h with he | hm
      · exact absurd he.symm ha
      · obtain ⟨cs, hcs⟩ := ih hm
        exact ⟨cs, by simp [List.dropWhile_cons, ha, hcs]⟩

/-- A trailing `']'` appended to a specifier does not change the parsed
table name. -/
theorem tableName_append_bracket (p : String) (h : containsBracket p = true) :
    tableName (p ++ "]") = tableName p := by
  unfold tableName
  rw [data_append_bracket,
    takeWhile_append_of_mem p.data [']'] '[' ((containsBracket_iff p).mp h)]

/-- A trailing `']'` appended to a specifier is appended to the text
after the first `'['`. -/
theorem fieldAfter_append_bracket (p : String) (h : containsBracket p = true) :
    fieldAfter (p ++ "]") = String.mk ((fieldAfter p).data ++ [']']) := by
  have hmem : '[' ∈ p.data := (containsBracket_iff p).mp h
  obtain ⟨cs, hcs⟩ := dropWhile_mem_eq_cons p.data '[' hmem
  unfold fieldAfter
  rw [data_append_bracket, dropWhile_append_of_mem p.data [']'] '[' hmem, hcs]
  simp

/-- Stripping trailing `']'` absorbs an appended `']'`. -/
theorem rstripBrackets_append_bracket (l : List Char) :
    rstripBrackets (String.mk (l ++ [']']))
      = rstripBrackets (String.mk l) := by
  unfold rstripBrackets
  simp [List.dropWhile_cons]

/-- A trailing `']'` appended to a specifier does not change the parsed
field name. -/
theorem fieldName_append_bracket (p : String) (h : containsBracket p = true) :
    fieldName (p ++ "]") = fieldName p := by
  unfold fieldName
  rw [fieldAfter_append_bracket p h, rstripBrackets_append_bracket]

/-- A single indexed specifier over a missing or non-list table leaves
the captured results empty. -/
theorem capturedResults_single_indexed_missing (result : PyDict) (p : String)
    (h1 : isIndexed p = true)
    (h2 : isListEntry (dictLookup result (tableName p)) = false) :
    capturedResults result [p] = [] := by
  simp only [capturedResults, List.foldl]
  unfold captureParam
  rw [h1]
  simp only [if_true]
  cases hm : dictLookup result (tableName p) with
  | none => rfl
  | some v =>
    cases v <;> first
      | rfl
      | (rw [hm] at h2; exact absurd h2 (by simp [isListEntry]))

/-- Two indexed specifiers that parse to the same table and field extract
the same value sequence from every raw result. -/
theorem capturedResults_single_same (result : PyDict) (p q : String)
    (hp : isIndexed p = true) (hq : isIndexed q = true)
    (ht : tableName q = tableName p) (hf : fieldName q = fieldName p) :
    dictLookup (capturedResults result [q]) q
      = dictLookup (capturedResults result [p]) p := by
  cases hm : dictLookup result (tableName p) with
  | none =>
    rw [capturedResults_single_indexed_missing result p hp (by rw [hm]; rfl),
      capturedResults_single_indexed_missing result q hq (by rw [ht, hm]; rfl)]
    rfl
  | some v =>
    cases v with
    | vList rows =>
      rw [capturedResults_single_indexed result p rows hp hm,
        capturedResults_single_indexed result q rows hq (by rw [ht]; exact hm),
        dictLookup_single_self, dictLookup_single_self, hf]
    | vNone =>
      rw [capturedResults_single_indexed_missing result p hp (by rw [hm]; rfl),
        capturedResults_single_indexed_missing result q hq (by rw [ht, hm]; rfl)]
      rfl
    | vBool b =>
      rw [capturedResults_single_indexed_missing result p hp (by rw [hm]; rfl),
        capturedResults_single_indexed_missing result q hq (by rw [ht, hm]; rfl)]
      rfl
    | vInt n =>
      rw [capturedResults_single_indexed_missing result p hp (by rw [hm]; rfl),
        capturedResults_single_indexed_missing result q hq (by rw [ht, hm]; rfl)]
      rfl
    | vStr s =>
      rw [capturedResults_single_indexed_missing result p hp (by rw [hm]; rfl),
        capturedResults_single_indexed_missing result q hq (by rw [ht, hm]; rfl)]
      rfl
    | vDict d =>
      rw [capturedResults_single_indexed_missing result p hp (by rw [hm]; rfl),
        capturedResults_single_indexed_missing result q hq (by rw [ht, hm]; rfl)]
      rfl

/-- C9: the parser takes the table name as the text before the first
`'['` and the field as the rest with all trailing `']'` removed, so a
specifier with an extra trailing `']'` is still an indexed specifier,
parses to the same table and field, and extracts the same value sequence
from every raw result (each stored under its own literal key). -/
theorem C9_trailing_bracket_equivalent (p : String) (h : isIndexed p = true) :
    isIndexed (p ++ "]") = true
  ∧ tableName (p ++ "]") = tableName p
  ∧ fieldName (p ++ "]") = fieldName p
  ∧ ∀ result : PyDict,
      dictLookup (capturedResults result [p ++ "]"]) (p ++ "]")
        = dictLookup (capturedResults result [p]) p := by
  have hc : containsBracket p = true := by
    unfold isIndexed at h
    exact (Bool.and_eq_true _ _).mp h |>.1
  have h1 : isIndexed (p ++ "]") = true := by
    unfold isIndexed containsBracket endsWithBracket
    rw [data_append_bracket]
    refine (Bool.and_eq_true _ _).mpr ⟨?_, ?_⟩
    · simp only [List.contains, List.elem_eq_mem]
      simp [List.mem_append, (containsBracket_iff p).mp hc]
    · simp [List.getLast?_concat]
  have h2 : tableName (p ++ "]") = tableName p := tableName_append_bracket p hc
  have h3 : fieldName (p ++ "]") = fieldName p := fieldName_append_bracket p hc
  exact ⟨h1, h2, h3, fun result =>
    capturedResults_single_same result p (p ++ "]") h h1 h2 h3⟩

/-- Witness: `ITAB[FIELD]` and `ITAB[FIELD]]` parse identically and
extract the same column from the worked scenario's raw result. -/
theorem C9_trailing_bracket_equivalent_witness :
    tableName ("ITAB[FIELD]" ++ "]") = "ITAB"
  ∧ fieldName ("ITAB[FIELD]" ++ "]") = "FIELD"
  ∧ dictLookup (capturedResults scenarioResult ["ITAB[FIELD]" ++ "]"])
        ("ITAB[FIELD]" ++ "]")
      = dictLookup (capturedResults scenarioResult ["ITAB[FIELD]"])
          "ITAB[FIELD]" := by
  have h := C9_trailing_bracket_equivalent "ITAB[FIELD]" rfl
  exact ⟨h.2.1.trans (by rfl), h.2.2.1.trans (by rfl), h.2.2.2 scenarioResult⟩
